import Mathlib

/-
  Verification of the arbitrage simulation engine
  (`Arbitrage_Bot/utility/arbitrage_file.py`) against its natural-language
  specification.

  Shallow embedding conventions:
  * Python floats are modelled as rationals (ℚ); the claims under study are
    about the arithmetic formulas and control flow, not IEEE rounding.
  * Python dicts are modelled as insertion-ordered association lists
    (`AList`), with `d[k] = v` updating the first occurrence in place or
    appending (`aset`), matching CPython dict semantics.
  * Exceptions (`ValueError`, `KeyError`, `ZeroDivisionError`, `TypeError`)
    are modelled by the `Except PyErr` monad.
  * `time.sleep(random.uniform(...))` calls are pure delays with no effect
    on any ledger value and are omitted.
  * The external `ccxt` venue connectors are modelled by a `Market` oracle
    `symbol → venue → Option ℚ` giving `fetch_ticker(...)['last']`
    (`none` = the fetch raises), and a `markets` oracle for
    `load_markets().keys()`.
-/

set_option allowUnsafeReducibility true in
attribute [semireducible] Rat.mul Rat.add Rat.sub Rat.inv Rat.ofScientific

set_option synthInstance.maxSize 2000

namespace Arbitrage

/-- Association list with string keys: the model of a Python `dict`
(iteration in insertion order). -/
abbrev AList (β : Type) := List (String × β)

/-- Python `d.get(k)` / `d[k]` lookup: first matching key. -/
def aget {β : Type} : AList β → String → Option β
  | [], _ => none
  | (k', v') :: rest, k => if k' = k then some v' else aget rest k

/-- Python `d.get(k, dflt)`. -/
def agetD {β : Type} (d : AList β) (k : String) (dflt : β) : β :=
  (aget d k).getD dflt

/-- Python `d[k] = v`: replace the value at the first occurrence of `k`,
or append `(k, v)` when `k` is absent. -/
def aset {β : Type} : AList β → String → β → AList β
  | [], k, v => [(k, v)]
  | (k', v') :: rest, k, v =>
      if k' = k then (k, v) :: rest else (k', v') :: aset rest k v

/-- Python `d1.update(d2)`: apply every binding of `d2` to `d1` in order. -/
def aupdate {β : Type} (d : AList β) (entries : AList β) : AList β :=
  entries.foldl (fun acc kv => aset acc kv.1 kv.2) d

/-- A venue balance sheet: Python dict currency ↦ amount, containing the
reserved cash key `"balance"` among ordinary currency keys. -/
abbrev Dict := AList ℚ

/-- `self.exchanges` of `SimulationTrading`: venue name ↦ balance sheet. -/
abbrev ExDict := AList Dict

/-- Helper for `str.split(c)` with a single-character separator. -/
def splitOnCharAux (c : Char) : List Char → List Char → List String
  | [], acc => [String.mk acc.reverse]
  | x :: xs, acc =>
      if x = c then String.mk acc.reverse :: splitOnCharAux c xs []
      else splitOnCharAux c xs (x :: acc)

/-- Python `s.split(c)` for a one-character separator `c`. -/
def splitOnChar (c : Char) (s : String) : List String :=
  splitOnCharAux c s.data []

/-- The Python exceptions that the embedded code can raise. -/
inductive PyErr : Type where
  | exchangeNotFound : String → PyErr
  | priceUnavailable : String → String → PyErr
  | keyError : String → PyErr
  | zeroDivisionError : PyErr
  | valueError : String → PyErr
  | typeError : PyErr
  | attributeError : PyErr
deriving DecidableEq

/-- `Except.isOk` as a plain Bool (avoiding any dependence on library
helpers). -/
def exOk {ε α : Type} : Except ε α → Bool
  | .ok _ => true
  | .error _ => false

/-- `ExchangeAPI` mutable state: the initialized venue names
(`self.exchanges.keys()`) and the price cache (`self.cache`). -/
structure ApiState where
  venues : List String
  cache : Dict
deriving DecidableEq

/-- External price oracle: `fetch_ticker(coin)['last']` per venue;
`none` models a raised connector exception. -/
abbrev Market := String → String → Option ℚ

/-- The cache key `f'{coin}_{exchange_name}_price'` of
`ExchangeAPI.get_price`. -/
def cacheKey (coin exch : String) : String :=
  coin ++ "_" ++ exch ++ "_price"

/-- `ExchangeAPI.get_price`: serve from `self.cache` when present;
otherwise require the venue to be initialized, fetch the ticker, cache
and return the last price. -/
def get_price (api : ApiState) (market : Market) (coin exch : String) :
    Except PyErr (ℚ × ApiState) :=
  match aget api.cache (cacheKey coin exch) with
  | some p => .ok (p, api)
  | none =>
      if exch ∈ api.venues then
        match market coin exch with
        | some p =>
            .ok (p, { api with cache := aset api.cache (cacheKey coin exch) p })
        | none => .error (.priceUnavailable coin exch)
      else .error (.exchangeNotFound exch)

/-- An arbitrage opportunity dict as built by
`ArbitrageAnalyzer.find_opportunities`. -/
structure Opportunity where
  buy_exchange : String
  sell_exchange : String
  currency : String
  buy_price : ℚ
  sell_price : ℚ
deriving DecidableEq

/-- The spread `sell_price - buy_price` (the `key` of the Python `max`). -/
def spread (o : Opportunity) : ℚ := o.sell_price - o.buy_price

/-- Python `max(ops, key=spread)`: `none` on the empty list (where Python
raises `ValueError`); on ties the first maximal element is kept, since
Python replaces the current maximum only on strict increase. -/
def pyMaxBySpread : List Opportunity → Option Opportunity
  | [] => none
  | x :: xs => some (xs.foldl (fun acc o => if spread acc < spread o then o else acc) x)

/-- `TransactionManager.get_best_opportunity`.  `Except.error` models the
`ValueError` raised by `max` on an empty sequence; `.ok none` models the
`return None` taken when the best spread is non-positive (after printing
a message); `.ok (some b)` is the returned best opportunity. -/
def get_best_opportunity (opportunities : List Opportunity) :
    Except PyErr (Option Opportunity) :=
  match pyMaxBySpread opportunities with
  | none => .error (.valueError ("max of empty sequence"))
  | some best =>
      if best.sell_price ≤ best.buy_price then .ok none
      else .ok (some best)

/-- The Python loop `for i ...: for j in range(i+1, ...)` over one list:
all ordered index pairs `i < j`, as value pairs. -/
def indexPairs {α : Type} : List α → List (α × α)
  | [] => []
  | x :: xs => (xs.map (fun y => (x, y))) ++ indexPairs xs

/-- The dict key `f'{exchange_list[i]}_{exchange_list[j]}'`. -/
def pairKey (a b : String) : String := a ++ "_" ++ b

/-- `load_markets().keys()` per initialized venue; `none` models a venue
missing from `self.exchanges` (truthy check / `AttributeError`). -/
abbrev Markets := String → Option (List String)

/-- Models the enumeration order of
`list(set(markets_a).intersection(set(markets_b)))` for the venue pair
`(a, b)`: CPython set iteration order, which depends on string hashes and
is not specified.  Theorems constrain it through `isEnumOfInter`. -/
abbrev InterEnum := String → String → List String

/-- `e` is a possible value of `list(set(m1) ∩ set(m2))`: duplicate-free
and containing exactly the symbols common to `m1` and `m2`. -/
def isEnumOfInter (e m1 m2 : List String) : Prop :=
  e.Nodup ∧ (∀ s ∈ e, s ∈ m1 ∧ s ∈ m2) ∧ (∀ s ∈ m1, s ∈ m2 → s ∈ e)

instance (e m1 m2 : List String) : Decidable (isEnumOfInter e m1 m2) := by
  unfold isEnumOfInter; infer_instance

/-- `ExchangeAPI.get_common_currency_pairs`.  With a non-empty allow-list
(`selected_assets`), each venue pair maps to the allow-list filtered to
symbols listed on both venues (an absent venue raises, modelling the
unguarded `.load_markets()` on `None`).  With an empty allow-list, each
pair of present venues maps to `list(set ∩ set)[:top_n]` — the
set-enumeration (`ienum`) truncated to `top_n`; absent venues are
skipped (`continue`). -/
def get_common_currency_pairs (markets : Markets) (ienum : InterEnum)
    (selected_assets : List String) (top_n : ℕ) (exchange_list : List String) :
    Except PyErr (List (String × List String)) :=
  if selected_assets ≠ [] then
    (indexPairs exchange_list).mapM (fun ab => do
      match markets ab.1, markets ab.2 with
      | some m1, some m2 =>
          .ok (pairKey ab.1 ab.2,
               selected_assets.filter (fun p => p ∈ m1 ∧ p ∈ m2))
      | _, _ => .error .attributeError)
  else
    .ok ((indexPairs exchange_list).filterMap (fun ab =>
      match markets ab.1, markets ab.2 with
      | some _, some _ => some (pairKey ab.1 ab.2, (ienum ab.1 ab.2).take top_n)
      | _, _ => none))

/-- Inner loop of `ArbitrageAnalyzer.find_opportunities` over the common
symbols of one venue pair, threading the accumulated opportunity list and
the API state.  Any `get_price` exception propagates (there is no
`try`/`except` in the source). -/
def findForCurrencies (market : Market) (min_diff : ℚ) (e1 e2 : String) :
    List String → List Opportunity → ApiState →
    Except PyErr (List Opportunity × ApiState)
  | [], acc, api => .ok (acc, api)
  | c :: cs, acc, api => do
      let (p1, api1) ← get_price api market c e1
      let (p2, api2) ← get_price api1 market c e2
      let acc' :=
        if |p1 - p2| ≥ min_diff then
          if p1 < p2 then acc ++ [⟨e1, e2, c, p1, p2⟩]
          else acc ++ [⟨e2, e1, c, p2, p1⟩]
        else acc
      findForCurrencies market min_diff e1 e2 cs acc' api2

/-- Outer loop of `find_opportunities` over the `common_pairs` dict items;
the key is split on an underscore into the two venue names
(`exchange_1, exchange_2 = pair.split('_')` — any other arity raises
`ValueError`). -/
def findForPairs (market : Market) (min_diff : ℚ) :
    List (String × List String) → List Opportunity → ApiState →
    Except PyErr (List Opportunity × ApiState)
  | [], acc, api => .ok (acc, api)
  | (key, currencies) :: rest, acc, api => do
      match splitOnChar ('_') key with
      | [e1, e2] => do
          let (acc', api') ← findForCurrencies market min_diff e1 e2 currencies acc api
          findForPairs market min_diff rest acc' api'
      | _ => .error (.valueError ("unpack"))

/-- `ArbitrageAnalyzer.find_opportunities`, given the already-computed
`common_pairs` dict (its computation is embedded separately as
`get_common_currency_pairs`). -/
def findOpportunities (api : ApiState) (market : Market) (min_diff : ℚ)
    (common_pairs : List (String × List String)) :
    Except PyErr (List Opportunity × ApiState) :=
  findForPairs market min_diff common_pairs [] api

/-- The three required risk-configuration entries read by
`calculate_trade_amount` (a missing key would raise `KeyError`; the
claims under study presuppose a complete configuration). -/
structure RiskConfig where
  max_trade_balance_percentage : ℚ
  price_difference_threshold : ℚ
  max_position_size : ℚ
deriving DecidableEq

/-- `ArbitrageAnalyzer.calculate_trade_amount`. -/
def calculate_trade_amount (risk : RiskConfig) (op : Opportunity) (balance : ℚ) : ℚ :=
  let max_position_size := balance * risk.max_trade_balance_percentage
  let trade_amount_based_on_difference :=
    (op.sell_price - op.buy_price) * risk.price_difference_threshold
  let trade_amount := min max_position_size trade_amount_based_on_difference
  if trade_amount > risk.max_position_size then risk.max_position_size
  else trade_amount

/-- `SimulationTrading.convert_to_usd`. -/
def convert_to_usd (coin price : ℚ) : ℚ := coin * price

/-- The "main currency" rule of `SimulationTrading.create_balance`:
quote side if the base is the reference, else base side. -/
def mainCurrency3 (base quote : String) : String :=
  if quote = ("USDT") ∨ quote = ("USD") then base
  else if base = ("USDT") ∨ base = ("USD") then quote
  else base

/-- The two-branch "main currency" rule of `simulate_buy`/`simulate_sell`. -/
def mainCurrency2 (base quote : String) : String :=
  if quote = ("USDT") ∨ quote = ("USD") then base else quote

/-- Per-venue inner loop of `create_balance` over `currency_pairs`:
builds the venue's non-cash balances and records the conversion price in
`self.conversion_prices` (creating the venue sub-dict on first write,
exactly as the `if exchange not in self.conversion_prices` guard does),
threading the API state.  Skips pairs whose main currency is the
reference (`USDT`); a zero price raises `ZeroDivisionError` on the
division `portion_balance / main_price`. -/
def seedPairs (market : Market) (exch : String) (portion : ℚ) :
    List String → Dict → AList Dict → ApiState →
    Except PyErr (Dict × AList Dict × ApiState)
  | [], bal, cps, api => .ok (bal, cps, api)
  | pair :: rest, bal, cps, api =>
      match splitOnChar ('/') pair with
      | [base, quote] =>
          let mc := mainCurrency3 base quote
          if mc ≠ ("USDT") then do
            let (p, api') ← get_price api market (mc ++ "/USDT") exch
            let cps0 := if (aget cps exch).isSome then cps else aset cps exch []
            let cps' := aset cps0 exch (aset (agetD cps0 exch []) mc p)
            if p = 0 then .error .zeroDivisionError else
            let bal' := aset bal mc (agetD bal mc 0 + portion / p)
            seedPairs market exch portion rest bal' cps' api'
          else seedPairs market exch portion rest bal cps api
      | _ => .error (.valueError ("unpack"))

/-- Outer loop of `create_balance` over the venue list: each venue's final
sheet is `{"balance": remaining}` updated with the converted holdings. -/
def seedVenues (market : Market) (portion remaining : ℚ)
    (currency_pairs : List String) :
    List String → ExDict → AList Dict → ApiState →
    Except PyErr (ExDict × AList Dict × ApiState)
  | [], exb, cps, api => .ok (exb, cps, api)
  | ex :: rest, exb, cps, api => do
      let (bal, cps', api') ←
        seedPairs market ex portion currency_pairs [] cps api
      let finalB := aupdate [(("balance"), remaining)] bal
      seedVenues market portion remaining currency_pairs rest
        (aset exb ex finalB) cps' api'

/-- `SimulationTrading.create_balance`, given the `common_pairs` dict.
`currency_pairs` is the concatenation of all dict values; one third of
`initial_balance` is kept as cash per venue and
`(2/3 · initial_balance) / len(currency_pairs)` is converted per listed
pair (an empty pair list raises `ZeroDivisionError`).  Returns the new
`self.exchanges`, the updated `self.conversion_prices`, and the API
state. -/
def create_balance (api : ApiState) (market : Market) (initial_balance : ℚ)
    (exchange_list : List String) (common_pairs : List (String × List String))
    (conv_prices : AList Dict) :
    Except PyErr (ExDict × AList Dict × ApiState) :=
  let currency_pairs := (common_pairs.map Prod.snd).flatten
  let balance_for_conversion := (2/3 : ℚ) * initial_balance
  let balance_remaining := (1/3 : ℚ) * initial_balance
  if currency_pairs.length = 0 then .error .zeroDivisionError
  else
    let portion := balance_for_conversion / (currency_pairs.length : ℚ)
    seedVenues market portion balance_remaining currency_pairs
      exchange_list [] conv_prices api

/-- The summation loop of `revert_to_dollars` over one venue's sheet:
`total_converted += amount * get_price(currency + "/USDT", exchange)`
for every non-cash entry, in dict order. -/
def sumConverted (market : Market) (exch : String) :
    Dict → ℚ → ApiState → Except PyErr (ℚ × ApiState)
  | [], acc, api => .ok (acc, api)
  | (k, v) :: rest, acc, api =>
      if k = ("balance") then sumConverted market exch rest acc api
      else do
        let (p, api') ← get_price api market (k ++ "/USDT") exch
        sumConverted market exch rest (acc + v * p) api'

/-- One venue of `revert_to_dollars`: read the cash entry, add the
converted value of every other entry, then zero every non-cash entry. -/
def revertSheet (market : Market) (exch : String) (sheet : Dict)
    (api : ApiState) : Except PyErr (Dict × ApiState) := do
  match aget sheet ("balance") with
  | none => .error (.keyError ("balance"))
  | some b => do
      let (total, api') ← sumConverted market exch sheet 0 api
      let s1 := aset sheet ("balance") (b + total)
      let s2 := s1.map (fun kv => if kv.1 = ("balance") then kv else (kv.1, (0 : ℚ)))
      .ok (s2, api')

/-- `SimulationTrading.revert_to_dollars`: reconcile every venue in
order, threading the API state. -/
def revert_to_dollars (market : Market) :
    ExDict → ApiState → Except PyErr (ExDict × ApiState)
  | [], api => .ok ([], api)
  | (ex, sheet) :: rest, api => do
      let (s', api') ← revertSheet market ex sheet api
      let (rest', api'') ← revert_to_dollars market rest api'
      .ok ((ex, s') :: rest', api'')

/-- `SimulationTrading.simulate_buy`: commission-capped conversion, then
`exchanges[exchange][main_currency] += bought` and
`exchanges[exchange]['balance'] -= usd_amount` (each `+=`/`-=` raises
`KeyError` when the key is absent; there is no funds check). -/
def simulate_buy (currency_pair : String) (usd_amount : ℚ) (op : Opportunity)
    (ex : ExDict) : Except PyErr ExDict :=
  match splitOnChar ('/') currency_pair with
  | [base, quote] =>
      let exch := op.buy_exchange
      let mc := mainCurrency2 base quote
      let commission_amount := min (usd_amount * (25/10000 : ℚ)) 5
      let amount_after := usd_amount - commission_amount
      if op.buy_price = 0 then .error .zeroDivisionError else
      let bought := amount_after / op.buy_price
      match aget ex exch with
      | none => .error (.keyError exch)
      | some sheet =>
          match aget sheet mc with
          | none => .error (.keyError mc)
          | some hv =>
              let sheet1 := aset sheet mc (hv + bought)
              match aget sheet1 ("balance") with
              | none => .error (.keyError ("balance"))
              | some bv =>
                  .ok (aset ex exch (aset sheet1 ("balance") (bv - usd_amount)))
  | _ => .error (.valueError ("unpack"))

/-- `SimulationTrading.simulate_sell`: symmetric to `simulate_buy` —
holding decreases, cash increases, again with no sufficiency check. -/
def simulate_sell (currency_pair : String) (usd_amount : ℚ) (op : Opportunity)
    (ex : ExDict) : Except PyErr ExDict :=
  match splitOnChar ('/') currency_pair with
  | [base, quote] =>
      let exch := op.sell_exchange
      let mc := mainCurrency2 base quote
      let commission_amount := min (usd_amount * (25/10000 : ℚ)) 5
      let amount_after := usd_amount - commission_amount
      if op.sell_price = 0 then .error .zeroDivisionError else
      let sold := amount_after / op.sell_price
      match aget ex exch with
      | none => .error (.keyError exch)
      | some sheet =>
          match aget sheet mc with
          | none => .error (.keyError mc)
          | some hv =>
              let sheet1 := aset sheet mc (hv - sold)
              match aget sheet1 ("balance") with
              | none => .error (.keyError ("balance"))
              | some bv =>
                  .ok (aset ex exch (aset sheet1 ("balance") (bv + usd_amount)))
  | _ => .error (.valueError ("unpack"))

/-- `SimulationTrading.convert_coin`: fetch the coin price, debit
`balance_coin` from the venue's cash, and return the converted amount. -/
def convert_coin (api : ApiState) (market : Market) (coin exch : String)
    (balance_coin : ℚ) (ex : ExDict) :
    Except PyErr ((String × ℚ) × ExDict × ApiState) := do
  let (p, api') ← get_price api market coin exch
  if p = 0 then .error .zeroDivisionError else
  let suma := balance_coin / p
  match aget ex exch with
  | none => .error (.keyError exch)
  | some sheet =>
      match aget sheet ("balance") with
      | none => .error (.keyError ("balance"))
      | some bv =>
          .ok ((coin, suma), aset ex exch (aset sheet ("balance") (bv - balance_coin)), api')

/-- `SimulationTrading.get_exchange_balance`:
`self.exchanges.get(name, {}).get("balance", 0)`. -/
def get_exchange_balance (ex : ExDict) (name : String) : ℚ :=
  agetD (agetD ex name []) ("balance") 0

/-- The mutable state of a `SimulationTrading` run: the `ExchangeAPI`
state (venues + price cache), `self.exchanges`, and
`self.conversion_prices`. -/
structure SimState where
  api : ApiState
  exchanges : ExDict
  convPrices : AList Dict
deriving DecidableEq

/-- The read-only collaborators of one simulation: venue connectors and
configuration. -/
structure Ctx where
  market : Market
  markets : Markets
  ienum : InterEnum
  selected_assets : List String
  top_n : ℕ
  min_price_difference : ℚ
  risk : RiskConfig
  initial_balance : ℚ

/-- `run_simulation` up to and including `revert_to_dollars` (steps:
re-seed via `create_balance`, find opportunities, pick the best, the two
simulated legs, reconcile).  `.ok none` from the selector (Python
`None`) makes the subsequent subscript raise `TypeError`. -/
def run_cycle_core (ctx : Ctx) (list_names : List String) (st : SimState) :
    Except PyErr SimState := do
  let cps1 ← get_common_currency_pairs ctx.markets ctx.ienum ctx.selected_assets
    ctx.top_n st.api.venues
  let (exd, cps, api1) ← create_balance st.api ctx.market ctx.initial_balance
    st.api.venues cps1 st.convPrices
  let cps2 ← get_common_currency_pairs ctx.markets ctx.ienum ctx.selected_assets
    ctx.top_n list_names
  let (ops, api2) ← findOpportunities api1 ctx.market ctx.min_price_difference cps2
  let op ← match get_best_opportunity ops with
    | .error e => .error e
    | .ok none => .error .typeError
    | .ok (some o) => .ok o
  let balB := get_exchange_balance exd op.buy_exchange
  let buy_amount_usdt := convert_to_usd (calculate_trade_amount ctx.risk op balB) op.buy_price
  let exd1 ← simulate_buy op.currency buy_amount_usdt op exd
  let balS := get_exchange_balance exd1 op.sell_exchange
  let sell_amount_usdt := convert_to_usd (calculate_trade_amount ctx.risk op balS) op.sell_price
  let exd2 ← simulate_sell op.currency sell_amount_usdt op exd1
  let (exd3, api3) ← revert_to_dollars ctx.market exd2 api2
  .ok ⟨api3, exd3, cps⟩

/-- `SimulationTrading.run_simulation`: the cycle core followed by the
orchestrator's own `convert_coin("ETH/USDT", "bybit", 100)` call; the
final `get_exchange_balance` reads are log-only and mutate nothing. -/
def run_simulation (ctx : Ctx) (list_names : List String) (st : SimState) :
    Except PyErr SimState := do
  let s6 ← run_cycle_core ctx list_names st
  let (_, exd, api) ← convert_coin s6.api ctx.market ("ETH/USDT") ("bybit") 100 s6.exchanges
  .ok ⟨api, exd, s6.convPrices⟩

/-- Every non-cash currency of `sheet` has its `currency/USDT` price for
venue `e` already present in the `ExchangeAPI` cache (spec-side predicate
used to reason about reconciliation-time price lookups). -/
def cachedAll (api : ApiState) (e : String) (sheet : Dict) : Prop :=
  ∀ kv ∈ sheet, kv.1 ≠ ("balance") →
    (aget api.cache (cacheKey (kv.1 ++ ("/USDT")) e)).isSome

instance (api : ApiState) (e : String) (sheet : Dict) :
    Decidable (cachedAll api e sheet) := by
  unfold cachedAll; infer_instance

/-- Decidable check that no pair of the list has `"balance"` as its main
currency (spec-side guard: a symbol like `balance/XYZ` would collide with
the reserved cash key). -/
def mainsOkB (pairs : List String) : Bool :=
  pairs.all (fun pair =>
    match splitOnChar ('/') pair with
    | [b, q] => ! (mainCurrency3 b q == ("balance"))
    | _ => true)

instance {ε α : Type} [DecidableEq ε] [DecidableEq α] :
    DecidableEq (Except ε α) := fun a b =>
  match a, b with
  | .ok x, .ok y =>
      if h : x = y then isTrue (by rw [h])
      else isFalse (fun hc => h (by injection hc))
  | .error x, .error y =>
      if h : x = y then isTrue (by rw [h])
      else isFalse (fun hc => h (by injection hc))
  | .ok _, .error _ => isFalse (fun hc => by injection hc)
  | .error _, .ok _ => isFalse (fun hc => by injection hc)

/-
  Concrete test fixtures.

  Scenario (from the spec's Scenario A/D shape): two venues `bybit` and
  `bitstamp`, one common symbol `ETH/USDT`, last prices 2000 (bybit) and
  2020 (bitstamp), threshold 0.01, `initial_balance = 6000`, risk
  configuration 10% of cash / spread multiplier 1 / absolute cap 50.
-/

/-- Scenario market oracle at seeding/simulation time. -/
def mD : Market := fun coin exch =>
  if coin = ("ETH/USDT") ∧ exch = ("bybit") then some 2000
  else if coin = ("ETH/USDT") ∧ exch = ("bitstamp") then some 2020
  else none

/-- A later market oracle (the market has moved: `ETH/USDT` is now 3000
everywhere) used to test reconciliation-time pricing. -/
def mD2 : Market := fun coin _ =>
  if coin = ("ETH/USDT") then some 3000 else none

/-- Scenario market listings. -/
def mktsD : Markets := fun v =>
  if v = ("bybit") ∨ v = ("bitstamp") then some [("ETH/USDT")] else none

/-- Scenario set-enumeration order (a singleton intersection has only one
enumeration). -/
def ienumD : InterEnum := fun _ _ => [("ETH/USDT")]

/-- Scenario risk configuration. -/
def riskD : RiskConfig := ⟨1/10, 1, 50⟩

/-- Scenario context. -/
def ctxD : Ctx := ⟨mD, mktsD, ienumD, [], 10, 1/100, riskD, 6000⟩

/-- Scenario initial API state: both venues initialized, empty cache. -/
def apiD : ApiState := ⟨[("bybit"), ("bitstamp")], []⟩

/-- Scenario initial simulation state (`self.exchanges` not yet seeded). -/
def st0 : SimState := ⟨apiD, [], []⟩

/-- The venue-name list passed to `run_simulation` in `main.py`. -/
def namesD : List String := [("bybit"), ("bitstamp")]

/-- The API state right after scenario seeding: both `ETH/USDT` prices
cached. -/
def apiSeeded : ApiState :=
  ⟨[("bybit"), ("bitstamp")],
   [(("ETH/USDT_bybit_price"), 2000), (("ETH/USDT_bitstamp_price"), 2020)]⟩

/-- The ledger produced by scenario seeding: each venue keeps 2000 cash
(one third of the whole 6000) and converts 4000 at its own price. -/
def seedExd : ExDict :=
  [(("bybit"), [(("balance"), 2000), (("ETH"), 2)]),
   (("bitstamp"), [(("balance"), 2000), (("ETH"), 200/101)])]

/-- The conversion prices recorded by scenario seeding. -/
def seedCps : AList Dict :=
  [(("bybit"), [(("ETH"), 2000)]), (("bitstamp"), [(("ETH"), 2020)])]

/-- The simulation state reached by `run_cycle_core` on the scenario
(after reconciliation, before the orchestrator's `convert_coin`). -/
def s6D : SimState :=
  ⟨apiSeeded,
   [(("bybit"), [(("balance"), 5995), (("ETH"), 0)]),
    (("bitstamp"), [(("balance"), 6005), (("ETH"), 0)])],
   seedCps⟩

/-- The final state of the scenario cycle (after `convert_coin` debited
100 from bybit). -/
def sFD : SimState :=
  ⟨apiSeeded,
   [(("bybit"), [(("balance"), 5895), (("ETH"), 0)]),
    (("bitstamp"), [(("balance"), 6005), (("ETH"), 0)])],
   seedCps⟩

/-- A junk pre-existing ledger used to test whether `run_simulation`
carries balances over from a previous cycle. -/
def stJunk : SimState :=
  ⟨apiD, [(("bybit"), [(("balance"), 123456)])], []⟩

/-- Fixture for the simulator claims: one venue `X` holding 100 cash and
no `ETH`. -/
def exC1 : ExDict := [(("X"), [(("balance"), 100), (("ETH"), 0)])]

/-- Opportunity used against `exC1`: buy on `X` at 2. -/
def opC1 : Opportunity := ⟨("X"), ("Y"), ("ETH/USDT"), 2, 3⟩

/-- An opportunity with zero spread (equal prices). -/
def opFlat : Opportunity := ⟨("a"), ("b"), ("ETH/USDT"), 5, 5⟩

/-- An opportunity with positive spread. -/
def opGood : Opportunity := ⟨("a"), ("b"), ("ETH/USDT"), 5, 7⟩

/-- API state for the finder fixtures: venues `e1`, `e2`, empty cache. -/
def apiE : ApiState := ⟨[("e1"), ("e2")], []⟩

/-- Finder market: `BAD/USDT` is unavailable on `e1`; `GOOD/USDT` trades
at 10 on `e1` and 20 on `e2`. -/
def mE : Market := fun coin exch =>
  if coin = ("GOOD/USDT") ∧ exch = ("e1") then some 10
  else if coin = ("GOOD/USDT") ∧ exch = ("e2") then some 20
  else none

/-- Finder market with equal prices: `P/USDT` is 5 on both venues. -/
def mEq : Market := fun coin _ =>
  if coin = ("P/USDT") then some 5 else none

/-- Market listings for the pair-matcher fixtures: venues `a` and `b`
both list `AAA` and `BBB`. -/
def mkts7 : Markets := fun v =>
  if v = ("a") ∨ v = ("b") then some [("AAA"), ("BBB")] else none

/-- One possible set-enumeration of the intersection `{AAA, BBB}`. -/
def ienum7a : InterEnum := fun _ _ => [("AAA"), ("BBB")]

/-- The other possible set-enumeration of the same intersection. -/
def ienum7b : InterEnum := fun _ _ => [("BBB"), ("AAA")]

/-- The opportunity the Finder emits for `GOOD/USDT` in the `mE` market. -/
def opGE : Opportunity := ⟨("e1"), ("e2"), ("GOOD/USDT"), 10, 20⟩

/-- API state after the Finder has fetched both `GOOD/USDT` prices. -/
def apiE2 : ApiState :=
  ⟨[("e1"), ("e2")],
   [(("GOOD/USDT_e1_price"), 10), (("GOOD/USDT_e2_price"), 20)]⟩

/-- The ledger obtained by reconciling `seedExd` (each venue back to 6000
cash — the conversion round-trips at the cached seed price). -/
def revExd : ExDict :=
  [(("bybit"), [(("balance"), 6000), (("ETH"), 0)]),
   (("bitstamp"), [(("balance"), 6000), (("ETH"), 0)])]

/-
  Helper lemmas.
-/

lemma ebind_ok {ε α β : Type} (x : α) (f : α → Except ε β) :
    (Except.ok x : Except ε α) >>= f = f x := rfl

lemma ebind_error {ε α β : Type} (e : ε) (f : α → Except ε β) :
    (Except.error e : Except ε α) >>= f = Except.error e := rfl

lemma aget_aset_self {β : Type} (d : AList β) (k : String) (v : β) :
    aget (aset d k v) k = some v := by
  induction d with
  | nil => simp [aget, aset]
  | cons kv t ih =>
      obtain ⟨k', v'⟩ := kv
      by_cases h : k' = k
      · subst h; simp [aget, aset]
      · simp [aget, aset, h, ih]

lemma aget_aset_ne {β : Type} (d : AList β) {k j : String} (v : β)
    (h : j ≠ k) : aget (aset d k v) j = aget d j := by
  induction d with
  | nil => simp [aget, aset, Ne.symm h]
  | cons kv t ih =>
      obtain ⟨k', v'⟩ := kv
      by_cases hk : k' = k
      · subst hk
        have : ¬ k' = j := fun hc => h (hc ▸ rfl)
        simp [aget, aset, this]
      · by_cases hj : k' = j
        · subst hj
          simp [aget, aset, hk, Ne.symm h]
        · simp [aget, aset, hk, hj, ih]

lemma aset_aget_same {β : Type} {d : AList β} {k : String} {v : β}
    (h : aget d k = some v) : aset d k v = d := by
  induction d with
  | nil => simp [aget] at h
  | cons kv t ih =>
      obtain ⟨k', v'⟩ := kv
      by_cases hk : k' = k
      · subst hk
        simp [aget] at h
        simp [aset, h]
      · simp [aget, hk] at h
        simp [aset, hk, ih h]

lemma aget_none_ne {β : Type} {d : AList β} {k : String}
    (h : aget d k = none) : ∀ kv ∈ d, kv.1 ≠ k := by
  induction d with
  | nil => simp
  | cons kv t ih =>
      obtain ⟨k', v'⟩ := kv
      by_cases hk : k' = k
      · simp [aget, hk] at h
      · simp only [aget, hk, if_false, if_neg hk] at h
        intro cv hcv
        rcases List.mem_cons.mp hcv with hcv1 | hcv1
        · subst hcv1; exact hk
        · exact ih h cv hcv1

lemma mem_aset {β : Type} {d : AList β} {k : String} {v : β} {kv : String × β}
    (h : kv ∈ aset d k v) : kv.1 = k ∨ kv ∈ d := by
  induction d with
  | nil =>
      simp [aset] at h
      subst h; left; rfl
  | cons kv' t ih =>
      obtain ⟨k', v'⟩ := kv'
      by_cases hk : k' = k
      · subst hk
        simp [aset] at h
        rcases h with h | h
        · subst h; left; rfl
        · right; exact List.mem_cons_of_mem _ h
      · simp [aset, hk] at h
        rcases h with h | h
        · right; subst h; exact List.mem_cons_self _ _
        · rcases ih h with h' | h'
          · left; exact h'
          · right; exact List.mem_cons_of_mem _ h'

lemma aget_aupdate_ne {β : Type} (entries d : AList β) (k : String)
    (h : ∀ kv ∈ entries, kv.1 ≠ k) :
    aget (aupdate d entries) k = aget d k := by
  induction entries generalizing d with
  | nil => rfl
  | cons kv t ih =>
      obtain ⟨k', v'⟩ := kv
      have hne : k ≠ k' := fun hc => h (k', v') (List.mem_cons_self _ _) (hc ▸ rfl)
      have : aupdate d ((k', v') :: t) = aupdate (aset d k' v') t := rfl
      rw [this, ih _ (fun kv hkv => h kv (List.mem_cons_of_mem _ hkv)),
        aget_aset_ne _ _ hne]

lemma get_price_cached (market : Market) {api : ApiState} {coin exch : String}
    {p : ℚ} (h : aget api.cache (cacheKey coin exch) = some p) :
    get_price api market coin exch = .ok (p, api) := by
  unfold get_price; rw [h]

lemma get_price_mono {api api' : ApiState} {market : Market}
    {coin exch : String} {p : ℚ}
    (h : get_price api market coin exch = .ok (p, api')) :
    ∀ k q, aget api.cache k = some q → aget api'.cache k = some q := by
  intro k q hk
  unfold get_price at h
  split at h
  · simp only [Except.ok.injEq, Prod.mk.injEq] at h
    obtain ⟨h1, h2⟩ := h
    subst h2; exact hk
  · rename_i hnone
    split at h
    · split at h
      · simp only [Except.ok.injEq, Prod.mk.injEq] at h
        obtain ⟨h1, h2⟩ := h
        subst h2
        have hne : k ≠ cacheKey coin exch := by
          intro hc; rw [hc, hnone] at hk; exact Option.noConfusion hk
        show aget (aset api.cache (cacheKey coin exch) _) k = some q
        rw [aget_aset_ne _ _ hne]; exact hk
      · simp at h
    · simp at h

lemma get_price_caches {api api' : ApiState} {market : Market}
    {coin exch : String} {p : ℚ}
    (h : get_price api market coin exch = .ok (p, api')) :
    aget api'.cache (cacheKey coin exch) = some p := by
  unfold get_price at h
  split at h
  · rename_i q hq
    simp only [Except.ok.injEq, Prod.mk.injEq] at h
    obtain ⟨h1, h2⟩ := h
    subst h2; rw [hq, h1]
  · split at h
    · split at h
      · simp only [Except.ok.injEq, Prod.mk.injEq] at h
        obtain ⟨h1, h2⟩ := h
        subst h2
        show aget (aset api.cache (cacheKey coin exch) _) (cacheKey coin exch) = some p
        rw [aget_aset_self, h1]
      · simp at h
    · simp at h

lemma cachedAll_mono {api api' : ApiState} {e : String} {sheet : Dict}
    (hm : ∀ k q, aget api.cache k = some q → aget api'.cache k = some q)
    (h : cachedAll api e sheet) : cachedAll api' e sheet := by
  intro kv hkv hne
  obtain ⟨p, hp⟩ := Option.isSome_iff_exists.mp (h kv hkv hne)
  exact Option.isSome_iff_exists.mpr ⟨p, hm _ _ hp⟩

lemma sumConverted_mono {market : Market} {e : String} :
    ∀ (sheet : Dict) (acc : ℚ) (api : ApiState) (t : ℚ) (api' : ApiState),
    sumConverted market e sheet acc api = .ok (t, api') →
    ∀ k q, aget api.cache k = some q → aget api'.cache k = some q := by
  intro sheet
  induction sheet with
  | nil =>
      intro acc api t api' h k q hk
      simp only [sumConverted, Except.ok.injEq, Prod.mk.injEq] at h
      exact h.2 ▸ hk
  | cons kv rest ih =>
      intro acc api t api' h k q hk
      obtain ⟨c, v⟩ := kv
      by_cases hc : c = ("balance")
      · rw [sumConverted, if_pos hc] at h
        exact ih _ _ _ _ h k q hk
      · rw [sumConverted, if_neg hc] at h
        cases hgp : get_price api market (c ++ ("/USDT")) e with
        | error err => rw [hgp, ebind_error] at h; simp at h
        | ok pr =>
            rw [hgp, ebind_ok] at h
            exact ih _ _ _ _ h k q (get_price_mono hgp k q hk)

lemma sumConverted_caches {market : Market} {e : String} :
    ∀ (sheet : Dict) (acc : ℚ) (api : ApiState) (t : ℚ) (api' : ApiState),
    sumConverted market e sheet acc api = .ok (t, api') →
    cachedAll api' e sheet := by
  intro sheet
  induction sheet with
  | nil => intro acc api t api' _ kv hkv; simp at hkv
  | cons kv rest ih =>
      intro acc api t api' h cv hcv hne
      obtain ⟨c, v⟩ := kv
      rcases List.mem_cons.mp hcv with hcv1 | hcv1
      · subst hcv1
        by_cases hc : c = ("balance")
        · exact absurd hc hne
        · rw [sumConverted, if_neg hc] at h
          cases hgp : get_price api market (c ++ ("/USDT")) e with
          | error err => rw [hgp, ebind_error] at h; simp at h
          | ok pr =>
              obtain ⟨pv, papi⟩ := pr
              rw [hgp, ebind_ok] at h
              have hcached := get_price_caches hgp
              exact Option.isSome_iff_exists.mpr
                ⟨pv, sumConverted_mono _ _ _ _ _ h _ _ hcached⟩
      · by_cases hc : c = ("balance")
        · rw [sumConverted, if_pos hc] at h
          exact ih _ _ _ _ h cv hcv1 hne
        · rw [sumConverted, if_neg hc] at h
          cases hgp : get_price api market (c ++ ("/USDT")) e with
          | error err => rw [hgp, ebind_error] at h; simp at h
          | ok pr =>
              rw [hgp, ebind_ok] at h
              exact ih _ _ _ _ h cv hcv1 hne

lemma sumConverted_zero {market : Market} {e : String} :
    ∀ (sheet : Dict) (acc : ℚ) (api : ApiState),
    (∀ kv ∈ sheet, kv.1 ≠ ("balance") → kv.2 = 0) →
    cachedAll api e sheet →
    sumConverted market e sheet acc api = .ok (acc, api) := by
  intro sheet
  induction sheet with
  | nil => intro acc api _ _; rfl
  | cons kv rest ih =>
      intro acc api hz hc
      obtain ⟨c, v⟩ := kv
      by_cases hbal : c = ("balance")
      · rw [sumConverted, if_pos hbal]
        exact ih _ _ (fun cv hcv => hz cv (List.mem_cons_of_mem _ hcv))
          (fun cv hcv => hc cv (List.mem_cons_of_mem _ hcv))
      · rw [sumConverted, if_neg hbal]
        obtain ⟨p, hp⟩ := Option.isSome_iff_exists.mp
          (hc (c, v) (List.mem_cons_self _ _) hbal)
        rw [get_price_cached market hp, ebind_ok]
        show sumConverted market e rest (acc + v * p) api = Except.ok (acc, api)
        have hv : v = 0 := hz (c, v) (List.mem_cons_self _ _) hbal
        rw [hv, zero_mul, add_zero]
        exact ih _ _ (fun cv hcv => hz cv (List.mem_cons_of_mem _ hcv))
          (fun cv hcv => hc cv (List.mem_cons_of_mem _ hcv))

lemma sumConverted_market_irrel (m1 m2 : Market) {e : String} :
    ∀ (sheet : Dict) (acc : ℚ) (api : ApiState),
    cachedAll api e sheet →
    sumConverted m1 e sheet acc api = sumConverted m2 e sheet acc api := by
  intro sheet
  induction sheet with
  | nil => intro acc api _; rfl
  | cons kv rest ih =>
      intro acc api hc
      obtain ⟨c, v⟩ := kv
      by_cases hbal : c = ("balance")
      · rw [sumConverted, sumConverted, if_pos hbal, if_pos hbal]
        exact ih _ _ (fun cv hcv => hc cv (List.mem_cons_of_mem _ hcv))
      · rw [sumConverted, sumConverted, if_neg hbal, if_neg hbal]
        obtain ⟨p, hp⟩ := Option.isSome_iff_exists.mp
          (hc (c, v) (List.mem_cons_self _ _) hbal)
        rw [get_price_cached m1 hp, get_price_cached m2 hp, ebind_ok, ebind_ok]
        show sumConverted m1 e rest (acc + v * p) api =
          sumConverted m2 e rest (acc + v * p) api
        exact ih _ _ (fun cv hcv => hc cv (List.mem_cons_of_mem _ hcv))

lemma zeroNonBal_id {d : Dict}
    (hz : ∀ kv ∈ d, kv.1 ≠ ("balance") → kv.2 = 0) :
    d.map (fun kv => if kv.1 = ("balance") then kv else (kv.1, (0 : ℚ))) = d := by
  induction d with
  | nil => rfl
  | cons kv rest ih =>
      obtain ⟨c, v⟩ := kv
      by_cases hbal : c = ("balance")
      · subst hbal
        simp [ih (fun cv hcv => hz cv (List.mem_cons_of_mem _ hcv))]
      · have hv : v = 0 := hz (c, v) (List.mem_cons_self _ _) hbal
        subst hv
        simp [hbal, ih (fun cv hcv => hz cv (List.mem_cons_of_mem _ hcv))]

lemma aget_zeroNonBal_bal (d : Dict) :
    aget (d.map (fun kv => if kv.1 = ("balance") then kv else (kv.1, (0 : ℚ))))
      ("balance") = aget d ("balance") := by
  induction d with
  | nil => rfl
  | cons kv rest ih =>
      obtain ⟨c, v⟩ := kv
      by_cases hbal : c = ("balance")
      · subst hbal
        simp [aget]
      · have hfn : (if (c, v).1 = ("balance") then (c, v) else ((c, v).1, (0 : ℚ)))
            = (c, (0 : ℚ)) := if_neg hbal
        rw [List.map_cons, hfn]
        simp [aget, hbal, ih]

lemma mem_zeroNonBal {d : Dict} {kv : String × ℚ}
    (h : kv ∈ d.map (fun kv => if kv.1 = ("balance") then kv else (kv.1, (0 : ℚ)))) :
    ∃ kv', kv' ∈ d ∧ kv'.1 = kv.1 := by
  obtain ⟨kv', hmem, heq⟩ := List.mem_map.mp h
  refine ⟨kv', hmem, ?_⟩
  by_cases hbal : kv'.1 = ("balance")
  · rw [if_pos hbal] at heq; rw [heq]
  · rw [if_neg hbal] at heq; rw [← heq]

lemma revertSheet_zero {market : Market} {e : String} {sheet s2 : Dict}
    {api api' : ApiState}
    (h : revertSheet market e sheet api = .ok (s2, api')) :
    ∀ kv ∈ s2, kv.1 ≠ ("balance") → kv.2 = 0 := by
  unfold revertSheet at h
  split at h
  · simp at h
  · rename_i b hb
    cases hsum : sumConverted market e sheet 0 api with
    | error err => rw [hsum, ebind_error] at h; simp at h
    | ok tp =>
        rw [hsum, ebind_ok] at h
        simp only [Except.ok.injEq, Prod.mk.injEq] at h
        obtain ⟨h1, h2⟩ := h
        intro kv hkv hne
        rw [← h1] at hkv
        obtain ⟨kv', hmem, heq⟩ := List.mem_map.mp hkv
        by_cases hbal : kv'.1 = ("balance")
        · rw [if_pos hbal] at heq
          exact absurd (heq ▸ hbal) hne
        · rw [if_neg hbal] at heq
          rw [← heq]

lemma revertSheet_cachedAll {market : Market} {e : String} {sheet s2 : Dict}
    {api api' : ApiState}
    (h : revertSheet market e sheet api = .ok (s2, api')) :
    cachedAll api' e s2 := by
  unfold revertSheet at h
  split at h
  · simp at h
  · rename_i b hb
    cases hsum : sumConverted market e sheet 0 api with
    | error err => rw [hsum, ebind_error] at h; simp at h
    | ok tp =>
        rw [hsum, ebind_ok] at h
        simp only [Except.ok.injEq, Prod.mk.injEq] at h
        obtain ⟨h1, h2⟩ := h
        intro kv hkv hne
        rw [← h1] at hkv
        obtain ⟨kv', hmem', hkey⟩ := mem_zeroNonBal hkv
        rcases mem_aset hmem' with hk | hk
        · exact absurd (hkey.symm ▸ hk) hne
        · have := sumConverted_caches sheet 0 api tp.1 tp.2 (by rw [hsum]) kv' hk
            (fun hc => hne (hkey ▸ hc))
          rw [hkey] at this
          exact h2 ▸ this

lemma revertSheet_bal {market : Market} {e : String} {sheet s2 : Dict}
    {api api' : ApiState}
    (h : revertSheet market e sheet api = .ok (s2, api')) :
    ∃ v, aget s2 ("balance") = some v := by
  unfold revertSheet at h
  split at h
  · simp at h
  · rename_i b hb
    cases hsum : sumConverted market e sheet 0 api with
    | error err => rw [hsum, ebind_error] at h; simp at h
    | ok tp =>
        rw [hsum, ebind_ok] at h
        simp only [Except.ok.injEq, Prod.mk.injEq] at h
        obtain ⟨h1, h2⟩ := h
        refine ⟨b + tp.1, ?_⟩
        rw [← h1, aget_zeroNonBal_bal, aget_aset_self]

lemma revertSheet_mono {market : Market} {e : String} {sheet s2 : Dict}
    {api api' : ApiState}
    (h : revertSheet market e sheet api = .ok (s2, api')) :
    ∀ k q, aget api.cache k = some q → aget api'.cache k = some q := by
  unfold revertSheet at h
  split at h
  · simp at h
  · cases hsum : sumConverted market e sheet 0 api with
    | error err => rw [hsum, ebind_error] at h; simp at h
    | ok tp =>
        rw [hsum, ebind_ok] at h
        simp only [Except.ok.injEq, Prod.mk.injEq] at h
        exact h.2 ▸ sumConverted_mono sheet 0 api tp.1 tp.2 (by rw [hsum])

lemma revertSheet_idem {market : Market} {e : String} {sheet : Dict}
    {api : ApiState} {b : ℚ}
    (hz : ∀ kv ∈ sheet, kv.1 ≠ ("balance") → kv.2 = 0)
    (hc : cachedAll api e sheet)
    (hb : aget sheet ("balance") = some b) :
    revertSheet market e sheet api = .ok (sheet, api) := by
  unfold revertSheet
  rw [hb]
  show (do
    let (total, api') ← sumConverted market e sheet 0 api
    let s1 := aset sheet ("balance") (b + total)
    let s2 := s1.map (fun kv => if kv.1 = ("balance") then kv else (kv.1, (0 : ℚ)))
    Except.ok (s2, api')) = Except.ok (sheet, api)
  rw [sumConverted_zero sheet 0 api hz hc, ebind_ok]
  show Except.ok ((aset sheet ("balance") (b + 0)).map
    (fun kv => if kv.1 = ("balance") then kv else (kv.1, (0 : ℚ))), api) =
    Except.ok (sheet, api)
  rw [add_zero, aset_aget_same hb, zeroNonBal_id hz]

lemma rtd_mono {market : Market} :
    ∀ (exd : ExDict) (api : ApiState) (exd' : ExDict) (api' : ApiState),
    revert_to_dollars market exd api = .ok (exd', api') →
    ∀ k q, aget api.cache k = some q → aget api'.cache k = some q := by
  intro exd
  induction exd with
  | nil =>
      intro api exd' api' h k q hk
      simp only [revert_to_dollars, Except.ok.injEq, Prod.mk.injEq] at h
      exact h.2 ▸ hk
  | cons kv rest ih =>
      intro api exd' api' h k q hk
      obtain ⟨e, sheet⟩ := kv
      cases hrs : revertSheet market e sheet api with
      | error err =>
          simp only [revert_to_dollars, hrs, ebind_error] at h
          exact Except.noConfusion h
      | ok sp =>
          obtain ⟨s2, api2⟩ := sp
          simp only [revert_to_dollars, hrs, ebind_ok] at h
          cases hrr : revert_to_dollars market rest api2 with
          | error err =>
              simp only [hrr, ebind_error] at h
              exact Except.noConfusion h
          | ok rp =>
              obtain ⟨rexd, rapi⟩ := rp
              simp only [hrr, ebind_ok, Except.ok.injEq, Prod.mk.injEq] at h
              exact h.2 ▸ ih _ _ _ hrr k q (revertSheet_mono hrs k q hk)


/-- C9: `revert_to_dollars` is idempotent on the ledger: whenever a call
succeeds, every non-cash holding of the result is zero, and an immediately
repeated call succeeds and returns the identical ledger (and even the
identical API state) — no venue's cash or holding changes. -/
theorem C9_revert_idempotent :
    ∀ (market : Market) (exd : ExDict) (api : ApiState) (exd1 : ExDict)
      (api1 : ApiState),
    revert_to_dollars market exd api = .ok (exd1, api1) →
    (∀ kv ∈ exd1, ∀ cv ∈ kv.2, cv.1 ≠ ("balance") → cv.2 = 0) ∧
    revert_to_dollars market exd1 api1 = .ok (exd1, api1) := by
  intro market exd
  induction exd with
  | nil =>
      intro api exd1 api1 h
      simp only [revert_to_dollars, Except.ok.injEq, Prod.mk.injEq] at h
      obtain ⟨h1, h2⟩ := h
      subst h1; subst h2
      exact ⟨by simp, rfl⟩
  | cons kv rest ih =>
      intro api exd1 api1 h
      obtain ⟨e, sheet⟩ := kv
      cases hrs : revertSheet market e sheet api with
      | error err =>
          simp only [revert_to_dollars, hrs, ebind_error] at h
          exact Except.noConfusion h
      | ok sp =>
          obtain ⟨s2, api2⟩ := sp
          simp only [revert_to_dollars, hrs, ebind_ok] at h
          cases hrr : revert_to_dollars market rest api2 with
          | error err =>
              simp only [hrr, ebind_error] at h
              exact Except.noConfusion h
          | ok rp =>
              obtain ⟨rexd, rapi⟩ := rp
              simp only [hrr, ebind_ok, Except.ok.injEq, Prod.mk.injEq] at h
              obtain ⟨h1, h2⟩ := h
              subst h1; subst h2
              obtain ⟨ihz, ihr⟩ := ih api2 rexd rapi hrr
              constructor
              · intro kv hkv cv hcv hne
                rcases List.mem_cons.mp hkv with h' | h'
                · subst h'
                  exact revertSheet_zero hrs cv hcv hne
                · exact ihz kv h' cv hcv hne
              · have hz2 := revertSheet_zero hrs
                have hc2 : cachedAll rapi e s2 :=
                  cachedAll_mono (rtd_mono rest api2 rexd rapi hrr)
                    (revertSheet_cachedAll hrs)
                obtain ⟨bv, hbv⟩ := revertSheet_bal hrs
                have hids : revertSheet market e s2 rapi = .ok (s2, rapi) :=
                  revertSheet_idem hz2 hc2 hbv
                simp only [revert_to_dollars, hids, ebind_ok, ihr,
                  Except.ok.injEq, Prod.mk.injEq]

/-- Witness for C9 at the seeded scenario ledger. -/
theorem C9_revert_idempotent_witness :
    revert_to_dollars mD revExd apiSeeded = Except.ok (revExd, apiSeeded) :=
  (C9_revert_idempotent mD seedExd apiSeeded revExd apiSeeded (by decide)).2

lemma pyMax_foldl_spec :
    ∀ (xs : List Opportunity) (x : Opportunity),
    (xs.foldl (fun acc o => if spread acc < spread o then o else acc) x) ∈ x :: xs ∧
    ∀ o ∈ x :: xs,
      spread o ≤ spread (xs.foldl (fun acc o => if spread acc < spread o then o else acc) x) := by
  intro xs
  induction xs with
  | nil =>
      intro x
      refine ⟨List.mem_cons_self _ _, ?_⟩
      intro o ho
      rcases List.mem_cons.mp ho with h | h
      · subst h; exact le_refl _
      · simp at h
  | cons y ys ih =>
      intro x
      have hfold : (y :: ys).foldl (fun acc o => if spread acc < spread o then o else acc) x =
          ys.foldl (fun acc o => if spread acc < spread o then o else acc)
            (if spread x < spread y then y else x) := rfl
      obtain ⟨ihm, ihb⟩ := ih (if spread x < spread y then y else x)
      constructor
      · rw [hfold]
        rcases List.mem_cons.mp ihm with h | h
        · by_cases hxy : spread x < spread y
          · rw [if_pos hxy] at h ⊢
            rw [h]
            exact List.mem_cons_of_mem _ (List.mem_cons_self _ _)
          · rw [if_neg hxy] at h ⊢
            rw [h]
            exact List.mem_cons_self _ _
        · exact List.mem_cons_of_mem _ (List.mem_cons_of_mem _ h)
      · intro o ho
        rw [hfold]
        have hz : spread (if spread x < spread y then y else x) ≤
            spread (ys.foldl (fun acc o => if spread acc < spread o then o else acc)
              (if spread x < spread y then y else x)) :=
          ihb _ (List.mem_cons_self _ _)
        rcases List.mem_cons.mp ho with h | h
        · subst h
          refine le_trans ?_ hz
          by_cases hxy : spread o < spread y
          · rw [if_pos hxy]; exact le_of_lt hxy
          · rw [if_neg hxy]
        · rcases List.mem_cons.mp h with h1 | h1
          · subst h1
            refine le_trans ?_ hz
            by_cases hxy : spread x < spread o
            · rw [if_pos hxy]
            · rw [if_neg hxy]; exact le_of_not_lt hxy
          · exact ihb o (List.mem_cons_of_mem _ h1)

/-- C5: the Opportunity Selector.  On the empty list
`get_best_opportunity` fails (the `ValueError` that Python's `max` raises
on an empty sequence — the `NoOpportunity` outcome); on a non-empty list
whose maximal spread is ≤ 0 it returns `None` (the `NotProfitable`
outcome); otherwise it returns an opportunity of the list that maximizes
`sell_price - buy_price`. -/
theorem C5_selector :
    (get_best_opportunity [] =
      Except.error (PyErr.valueError ("max of empty sequence"))) ∧
    (∀ ops, ops ≠ [] → (∀ o ∈ ops, spread o ≤ 0) →
      get_best_opportunity ops = .ok none) ∧
    (∀ ops b, get_best_opportunity ops = .ok (some b) →
      b ∈ ops ∧ 0 < spread b ∧ ∀ o ∈ ops, spread o ≤ spread b) ∧
    (∀ ops, (∃ o ∈ ops, 0 < spread o) →
      ∃ b, get_best_opportunity ops = .ok (some b) ∧ b ∈ ops ∧
        ∀ o ∈ ops, spread o ≤ spread b) := by
  refine ⟨rfl, ?_, ?_, ?_⟩
  · intro ops hne hle
    cases ops with
    | nil => exact absurd rfl hne
    | cons x xs =>
        obtain ⟨hm, _⟩ := pyMax_foldl_spec xs x
        have hsp : spread (xs.foldl (fun acc o => if spread acc < spread o then o else acc) x) ≤ 0 :=
          hle _ hm
        have hsb : (xs.foldl (fun acc o => if spread acc < spread o then o else acc) x).sell_price ≤
            (xs.foldl (fun acc o => if spread acc < spread o then o else acc) x).buy_price :=
          sub_nonpos.mp hsp
        simp only [get_best_opportunity, pyMaxBySpread, if_pos hsb]
  · intro ops b h
    cases ops with
    | nil => simp [get_best_opportunity, pyMaxBySpread] at h
    | cons x xs =>
        obtain ⟨hm, hb⟩ := pyMax_foldl_spec xs x
        simp only [get_best_opportunity, pyMaxBySpread] at h
        split at h
        · exact absurd h (by simp)
        · rename_i hgt
          simp only [Except.ok.injEq, Option.some.injEq] at h
          subst h
          exact ⟨hm, sub_pos.mpr (lt_of_not_le hgt), hb⟩
  · intro ops hex
    obtain ⟨o, ho, hpos⟩ := hex
    cases ops with
    | nil => simp at ho
    | cons x xs =>
        obtain ⟨hm, hb⟩ := pyMax_foldl_spec xs x
        have hposm : 0 < spread (xs.foldl (fun acc o => if spread acc < spread o then o else acc) x) :=
          lt_of_lt_of_le hpos (hb o ho)
        have hgt : ¬ (xs.foldl (fun acc o => if spread acc < spread o then o else acc) x).sell_price ≤
            (xs.foldl (fun acc o => if spread acc < spread o then o else acc) x).buy_price :=
          not_le_of_lt (sub_pos.mp hposm)
        refine ⟨_, ?_, hm, hb⟩
        simp only [get_best_opportunity, pyMaxBySpread, if_neg hgt]

/-- Witness for C5: a one-element list with zero spread is rejected as
not profitable (the selector returns `None`). -/
theorem C5_selector_witness :
    get_best_opportunity [opFlat] = Except.ok none :=
  C5_selector.2.1 [opFlat] (by simp) (by decide)

/-- C1 (counterexample): with 100 cash on the buy venue, a buy leg of
notional 150 is NOT rejected — `simulate_buy` succeeds, and the venue's
cash afterwards is -50: it changed (≠ 100) and went negative, so the
Trade Simulator does reduce cash below zero. -/
theorem C1_counterexample :
    simulate_buy ("ETH/USDT") 150 opC1 exC1 =
      Except.ok [(("X"), [(("balance"), -50), (("ETH"), 1197/16)])] ∧
    get_exchange_balance exC1 ("X") = 100 ∧
    get_exchange_balance
      [(("X"), [(("balance"), (-50 : ℚ)), (("ETH"), 1197/16)])] ("X") = -50 ∧
    ¬ ((-50 : ℚ) = 100) ∧ ((-50 : ℚ) < 0) := by decide

/-- C1 (amended): `simulate_buy` performs no funds check at all.  Whenever
the buy venue's sheet and the main-currency and cash keys exist and the
buy price is non-zero, the leg always applies: the holding is credited
with `(usd - min(usd*0.0025, 5)) / buy_price` and the cash becomes
exactly `cash - usd` — which is negative whenever `usd` exceeds the
pre-trade cash.  (Consequently the sell leg is not prevented either.) -/
theorem C1_amended :
    ∀ (cp base quote : String) (usd : ℚ) (op : Opportunity) (ex : ExDict)
      (sheet : Dict) (hv bv : ℚ),
    splitOnChar ('/') cp = [base, quote] →
    op.buy_price ≠ 0 →
    aget ex op.buy_exchange = some sheet →
    aget sheet (mainCurrency2 base quote) = some hv →
    mainCurrency2 base quote ≠ ("balance") →
    aget sheet ("balance") = some bv →
    simulate_buy cp usd op ex =
      Except.ok (aset ex op.buy_exchange
        (aset (aset sheet (mainCurrency2 base quote)
          (hv + (usd - min (usd * (25/10000)) 5) / op.buy_price))
          ("balance") (bv - usd))) ∧
    get_exchange_balance
      (aset ex op.buy_exchange
        (aset (aset sheet (mainCurrency2 base quote)
          (hv + (usd - min (usd * (25/10000)) 5) / op.buy_price))
          ("balance") (bv - usd))) op.buy_exchange = bv - usd ∧
    (bv < usd → bv - usd < 0) := by
  intro cp base quote usd op ex sheet hv bv hsplit hp hex hsheet hnc hbal
  have h1 : aget (aset sheet (mainCurrency2 base quote)
      (hv + (usd - min (usd * (25/10000)) 5) / op.buy_price)) ("balance") = some bv := by
    rw [aget_aset_ne _ _ (Ne.symm hnc)]; exact hbal
  refine ⟨?_, ?_, ?_⟩
  · simp only [simulate_buy, hsplit, hex, hsheet, h1, if_neg hp]
  · simp [get_exchange_balance, agetD, aget_aset_self]
  · intro hlt; linarith

/-- Witness for C1 (amended) at the concrete `exC1` ledger. -/
theorem C1_amended_witness :
    simulate_buy ("ETH/USDT") 150 opC1 exC1 =
      Except.ok (aset exC1 opC1.buy_exchange
        (aset (aset [(("balance"), 100), (("ETH"), 0)]
          (mainCurrency2 ("ETH") ("USDT"))
          (0 + (150 - min (150 * (25/10000)) 5) / opC1.buy_price))
          ("balance") (100 - 150))) :=
  (C1_amended ("ETH/USDT") ("ETH") ("USDT") 150 opC1 exC1
    [(("balance"), 100), (("ETH"), 0)] 0 100 (by decide) (by decide)
    (by decide) (by decide) (by decide) (by decide)).1

/-- C4 (counterexample): `run_simulation` re-seeds on every call.  Two
cycles started from different carried-over ledgers (empty vs. junk) with
the same API state produce the identical result: the previous cycle's
balance sheets are discarded and re-created from the configured initial
amount. -/
theorem C4_counterexample :
    run_simulation ctxD namesD st0 = Except.ok sFD ∧
    run_simulation ctxD namesD stJunk = Except.ok sFD ∧
    ¬ (st0.exchanges = stJunk.exchanges) ∧
    ¬ (sFD.exchanges = stJunk.exchanges) := by decide

/-- C4 (amended): every `run_simulation` call begins with
`create_balance`, so its outcome is independent of the balance sheets
carried over from the previous cycle — it depends on the prior state only
through the API price cache and the recorded conversion prices. -/
theorem C4_amended :
    ∀ (ctx : Ctx) (names : List String) (s1 s2 : SimState),
    s1.api = s2.api → s1.convPrices = s2.convPrices →
    run_simulation ctx names s1 = run_simulation ctx names s2 := by
  intro ctx names s1 s2 h1 h2
  obtain ⟨a1, e1, c1⟩ := s1
  obtain ⟨a2, e2, c2⟩ := s2
  have ha : a1 = a2 := h1
  have hc : c1 = c2 := h2
  subst ha; subst hc
  rfl

/-- Witness for C4 (amended): the junk ledger is ignored. -/
theorem C4_amended_witness :
    run_simulation ctxD namesD st0 = run_simulation ctxD namesD stJunk :=
  C4_amended ctxD namesD st0 stJunk (by decide) (by decide)

/-- C10 (counterexample): after the Reconciler finishes, bybit holds 5995
in the scenario cycle, yet the cycle's final ledger holds 5895 — the
orchestrator's own `convert_coin("ETH/USDT", "bybit", 100)` call debits
another 100 from bybit's cash between reconciliation and reporting, a
mutation made by neither a simulator leg nor the Reconciler. -/
theorem C10_counterexample :
    run_cycle_core ctxD namesD st0 = Except.ok s6D ∧
    get_exchange_balance s6D.exchanges ("bybit") = 5995 ∧
    run_simulation ctxD namesD st0 = Except.ok sFD ∧
    get_exchange_balance sFD.exchanges ("bybit") = 5895 ∧
    ¬ ((5895 : ℚ) = 5995) := by decide

/-- C10 (amended): balance sheets are mutated by the legs, the
Reconciler, AND the orchestrator: whenever the cycle core succeeds and
the trailing `convert_coin` succeeds, the final ledger is the core's
ledger with exactly 100 more debited from bybit's cash. -/
theorem C10_amended :
    ∀ (ctx : Ctx) (names : List String) (st s6 : SimState) (r : String × ℚ)
      (exd' : ExDict) (api' : ApiState),
    run_cycle_core ctx names st = .ok s6 →
    convert_coin s6.api ctx.market ("ETH/USDT") ("bybit") 100 s6.exchanges =
      .ok (r, exd', api') →
    run_simulation ctx names st = .ok ⟨api', exd', s6.convPrices⟩ ∧
    get_exchange_balance exd' ("bybit") =
      get_exchange_balance s6.exchanges ("bybit") - 100 := by
  intro ctx names st s6 r exd' api' hcore hconv
  constructor
  · simp only [run_simulation, hcore, ebind_ok, hconv]
  · unfold convert_coin at hconv
    cases hgp : get_price s6.api ctx.market ("ETH/USDT") ("bybit") with
    | error err =>
        rw [hgp, ebind_error] at hconv
        exact Except.noConfusion hconv
    | ok pp =>
        obtain ⟨p, api2⟩ := pp
        simp only [hgp, ebind_ok] at hconv
        split at hconv
        · exact Except.noConfusion hconv
        · cases hsheet : aget s6.exchanges ("bybit") with
          | none =>
              simp only [hsheet] at hconv
              exact Except.noConfusion hconv
          | some sheet =>
              simp only [hsheet] at hconv
              cases hbv : aget sheet ("balance") with
              | none =>
                  simp only [hbv] at hconv
                  exact Except.noConfusion hconv
              | some bv =>
                  simp only [hbv, Except.ok.injEq, Prod.mk.injEq] at hconv
                  obtain ⟨hr, hexd, hapi⟩ := hconv
                  rw [← hexd]
                  have hl : get_exchange_balance
                      (aset s6.exchanges ("bybit")
                        (aset sheet ("balance") (bv - 100))) ("bybit") = bv - 100 := by
                    simp [get_exchange_balance, agetD, aget_aset_self]
                  have hrr : get_exchange_balance s6.exchanges ("bybit") = bv := by
                    simp [get_exchange_balance, agetD, hsheet, hbv]
                  rw [hl, hrr]

/-- Witness for C10 (amended) at the scenario cycle. -/
theorem C10_amended_witness :
    run_simulation ctxD namesD st0 = Except.ok ⟨sFD.api, sFD.exchanges, s6D.convPrices⟩ ∧
    get_exchange_balance sFD.exchanges ("bybit") =
      get_exchange_balance s6D.exchanges ("bybit") - 100 :=
  C10_amended ctxD namesD st0 s6D (("ETH/USDT"), 1/20) sFD.exchanges sFD.api
    (by decide) (by decide)

/-- C6 (counterexample): one unavailable price aborts the whole scan.
With symbols `BAD/USDT` (price fetch fails on `e1`) and `GOOD/USDT`
(valid opportunity), `find_opportunities` propagates the exception and
returns nothing — whereas scanning `GOOD/USDT` alone yields its
opportunity, which the failing scan therefore lost. -/
theorem C6_counterexample :
    findOpportunities apiE mE (1/100)
      [(("e1_e2"), [("BAD/USDT"), ("GOOD/USDT")])] =
      Except.error (PyErr.priceUnavailable ("BAD/USDT") ("e1")) ∧
    findOpportunities apiE mE (1/100) [(("e1_e2"), [("GOOD/USDT")])] =
      Except.ok ([opGE], apiE2) := by decide

/-- C6 (amended): a price-fetch failure for the first symbol of a venue
pair propagates out of `find_opportunities` (there is no `try`/`except`):
the entire scan aborts with that exception and no opportunities are
returned for any remaining symbol or venue pair. -/
theorem C6_amended :
    ∀ (api : ApiState) (market : Market) (d : ℚ) (key c e1 e2 : String)
      (cs : List String) (pairs : List (String × List String)) (err : PyErr),
    splitOnChar ('_') key = [e1, e2] →
    get_price api market c e1 = .error err →
    findOpportunities api market d ((key, c :: cs) :: pairs) = .error err := by
  intro api market d key c e1 e2 cs pairs err hsplit hgp
  simp only [findOpportunities, findForPairs, hsplit, findForCurrencies, hgp,
    ebind_error]

/-- Witness for C6 (amended) at the concrete fixtures. -/
theorem C6_amended_witness :
    findOpportunities apiE mE (1/100)
      [(("e1_e2"), [("BAD/USDT"), ("GOOD/USDT")])] =
      Except.error (PyErr.priceUnavailable ("BAD/USDT") ("e1")) :=
  C6_amended apiE mE (1/100) ("e1_e2") ("BAD/USDT") ("e1") ("e2")
    [("GOOD/USDT")] [] (PyErr.priceUnavailable ("BAD/USDT") ("e1"))
    (by decide) (by decide)

/-- C7 (counterexample): the auto-discovered common-symbol list is NOT
deterministically sorted.  For one market snapshot (both venues list
`AAA` and `BBB`) there are two legitimate set-enumeration orders, and
with `top_n = 1` they yield different results — two runs against the same
snapshot need not return the identical ordered list. -/
theorem C7_counterexample :
    isEnumOfInter [("AAA"), ("BBB")] [("AAA"), ("BBB")] [("AAA"), ("BBB")] ∧
    isEnumOfInter [("BBB"), ("AAA")] [("AAA"), ("BBB")] [("AAA"), ("BBB")] ∧
    get_common_currency_pairs mkts7 ienum7a [] 1 [("a"), ("b")] =
      Except.ok [(("a_b"), [("AAA")])] ∧
    get_common_currency_pairs mkts7 ienum7b [] 1 [("a"), ("b")] =
      Except.ok [(("a_b"), [("BBB")])] ∧
    ¬ (([("AAA")] : List String) = [("BBB")]) := by decide

/-- C7 (amended): with no allow-list, the result for a venue pair is the
set-enumeration of the intersection truncated to `top_n` — all its
entries are listed on both venues, it has no duplicates and at most
`top_n` entries, but its order is the unspecified set-iteration order,
not a sorted one. -/
theorem C7_amended :
    ∀ (markets : Markets) (ienum : InterEnum) (top_n : ℕ) (a b : String)
      (m1 m2 : List String),
    markets a = some m1 → markets b = some m2 →
    isEnumOfInter (ienum a b) m1 m2 →
    get_common_currency_pairs markets ienum [] top_n [a, b] =
      .ok [(pairKey a b, (ienum a b).take top_n)] ∧
    ((ienum a b).take top_n).length ≤ top_n ∧
    ((ienum a b).take top_n).Nodup ∧
    (∀ s ∈ (ienum a b).take top_n, s ∈ m1 ∧ s ∈ m2) := by
  intro markets ienum top_n a b m1 m2 h1 h2 henum
  refine ⟨?_, ?_, ?_, ?_⟩
  · simp [get_common_currency_pairs, indexPairs, h1, h2]
  · rw [List.length_take]
    exact min_le_left top_n (ienum a b).length
  · exact List.Nodup.sublist (List.take_sublist _ _) henum.1
  · intro t ht
    exact henum.2.1 t (List.mem_of_mem_take ht)

/-- Witness for C7 (amended) at the concrete fixtures. -/
theorem C7_amended_witness :
    get_common_currency_pairs mkts7 ienum7a [] 1 [("a"), ("b")] =
      Except.ok [(pairKey ("a") ("b"), (ienum7a ("a") ("b")).take 1)] :=
  (C7_amended mkts7 ienum7a 1 ("a") ("b") [("AAA"), ("BBB")] [("AAA"), ("BBB")]
    (by decide) (by decide) (by decide)).1

/-- C8 (counterexample): with `min_price_difference = 0` (a legal
configuration value) and equal prices on both venues, the Finder emits an
opportunity whose buy and sell price are equal — `sell_price ≤ buy_price`
is emitted. -/
theorem C8_counterexample :
    findOpportunities apiE mEq 0 [(("e1_e2"), [("P/USDT")])] =
      Except.ok ([⟨("e2"), ("e1"), ("P/USDT"), 5, 5⟩],
        ⟨[("e1"), ("e2")],
         [(("P/USDT_e1_price"), 5), (("P/USDT_e2_price"), 5)]⟩) ∧
    ¬ ((⟨("e2"), ("e1"), ("P/USDT"), 5, 5⟩ : Opportunity).buy_price <
       (⟨("e2"), ("e1"), ("P/USDT"), 5, 5⟩ : Opportunity).sell_price) := by
  decide

lemma findForCurrencies_buyLt {market : Market} {d : ℚ} {e1 e2 : String}
    (hd : 0 < d) :
    ∀ (cs : List String) (acc : List Opportunity) (api : ApiState)
      (ops : List Opportunity) (api' : ApiState),
    (∀ o ∈ acc, o.buy_price < o.sell_price) →
    findForCurrencies market d e1 e2 cs acc api = .ok (ops, api') →
    ∀ o ∈ ops, o.buy_price < o.sell_price := by
  intro cs
  induction cs with
  | nil =>
      intro acc api ops api' hacc h
      simp only [findForCurrencies, Except.ok.injEq, Prod.mk.injEq] at h
      intro o ho
      exact hacc o (h.1 ▸ ho)
  | cons c cs ih =>
      intro acc api ops api' hacc h
      cases hg1 : get_price api market c e1 with
      | error err =>
          simp only [findForCurrencies, hg1, ebind_error] at h
          exact Except.noConfusion h
      | ok pp1 =>
          obtain ⟨p1, api1⟩ := pp1
          simp only [findForCurrencies, hg1, ebind_ok] at h
          cases hg2 : get_price api1 market c e2 with
          | error err =>
              simp only [hg2, ebind_error] at h
              exact Except.noConfusion h
          | ok pp2 =>
              obtain ⟨p2, api2⟩ := pp2
              simp only [hg2, ebind_ok] at h
              refine ih _ _ _ _ ?_ h
              by_cases h1 : |p1 - p2| ≥ d
              · have hne : p1 ≠ p2 := by
                  intro hcc
                  rw [hcc, sub_self, abs_zero] at h1
                  linarith
                rw [if_pos h1]
                by_cases h2 : p1 < p2
                · rw [if_pos h2]
                  intro o ho
                  rcases List.mem_append.mp ho with hoa | hob
                  · exact hacc o hoa
                  · rw [List.mem_singleton.mp hob]
                    exact h2
                · rw [if_neg h2]
                  intro o ho
                  rcases List.mem_append.mp ho with hoa | hob
                  · exact hacc o hoa
                  · rw [List.mem_singleton.mp hob]
                    exact lt_of_le_of_ne (le_of_not_lt h2) (Ne.symm hne)
              · rw [if_neg h1]
                exact hacc

lemma findForPairs_buyLt {market : Market} {d : ℚ} (hd : 0 < d) :
    ∀ (pairs : List (String × List String)) (acc : List Opportunity)
      (api : ApiState) (ops : List Opportunity) (api' : ApiState),
    (∀ o ∈ acc, o.buy_price < o.sell_price) →
    findForPairs market d pairs acc api = .ok (ops, api') →
    ∀ o ∈ ops, o.buy_price < o.sell_price := by
  intro pairs
  induction pairs with
  | nil =>
      intro acc api ops api' hacc h
      simp only [findForPairs, Except.ok.injEq, Prod.mk.injEq] at h
      intro o ho
      exact hacc o (h.1 ▸ ho)
  | cons kv rest ih =>
      intro acc api ops api' hacc h
      obtain ⟨key, currencies⟩ := kv
      cases hsp : splitOnChar ('_') key with
      | nil =>
          simp only [findForPairs, hsp] at h
          exact Except.noConfusion h
      | cons x1 t1 =>
          cases t1 with
          | nil =>
              simp only [findForPairs, hsp] at h
              exact Except.noConfusion h
          | cons x2 t2 =>
              cases t2 with
              | nil =>
                  simp only [findForPairs, hsp] at h
                  cases hfc : findForCurrencies market d x1 x2 currencies acc api with
                  | error err =>
                      rw [hfc, ebind_error] at h
                      exact Except.noConfusion h
                  | ok mid =>
                      obtain ⟨accMid, apiMid⟩ := mid
                      rw [hfc, ebind_ok] at h
                      exact ih _ _ _ _
                        (findForCurrencies_buyLt hd currencies acc api accMid apiMid hacc hfc) h
              | cons x3 t3 =>
                  simp only [findForPairs, hsp] at h
                  exact Except.noConfusion h

/-- C8 (amended): whenever the configured `min_price_difference` is
strictly positive, every opportunity emitted by `find_opportunities`
satisfies `buy_price < sell_price`; the invariant can only be violated
under a non-positive threshold (as the counterexample shows). -/
theorem C8_amended :
    ∀ (api : ApiState) (market : Market) (d : ℚ)
      (pairs : List (String × List String)) (ops : List Opportunity)
      (api' : ApiState),
    0 < d →
    findOpportunities api market d pairs = .ok (ops, api') →
    ∀ o ∈ ops, o.buy_price < o.sell_price :=
  fun api market d pairs ops api' hd h =>
    findForPairs_buyLt hd pairs [] api ops api' (by simp) h

/-- Witness for C8 (amended): the scenario Finder output satisfies the
invariant. -/
theorem C8_amended_witness : opGE.buy_price < opGE.sell_price :=
  C8_amended apiE mE (1/100) [(("e1_e2"), [("GOOD/USDT")])] [opGE] apiE2
    (by norm_num) (by decide) opGE (List.mem_singleton_self _)

lemma mainsOkB_spec {pairs : List String} (h : mainsOkB pairs = true) :
    ∀ pair ∈ pairs, ∀ b q, splitOnChar ('/') pair = [b, q] →
      mainCurrency3 b q ≠ ("balance") := by
  intro pair hp b q hsp
  have hall := List.all_eq_true.mp h pair hp
  rw [hsp] at hall
  simpa using hall

lemma revertSheet_market_irrel :
    ∀ (api : ApiState) (m1 m2 : Market) (e : String) (sheet : Dict),
    cachedAll api e sheet →
    revertSheet m1 e sheet api = revertSheet m2 e sheet api := by
  intro api m1 m2 e sheet hc
  cases hb : aget sheet ("balance") with
  | none => simp only [revertSheet, hb]
  | some b =>
      simp only [revertSheet, hb]
      rw [sumConverted_market_irrel m1 m2 sheet 0 api hc]

/-- C3 (counterexample): the market moves from 2000 to 3000 between
seeding and reconciliation, yet the reconciled bybit cash is
2000 + 2·2000 = 6000 (the cached seed-time price), not
2000 + 2·3000 = 8000 (the current price): `revert_to_dollars` re-calls
`get_price`, but `get_price` serves the price cached at seeding time. -/
theorem C3_counterexample :
    create_balance apiD mD 6000 apiD.venues
      [((pairKey ("bybit") ("bitstamp")), [("ETH/USDT")])] [] =
      Except.ok (seedExd, seedCps, apiSeeded) ∧
    mD2 ("ETH/USDT") ("bybit") = some 3000 ∧
    agetD (agetD seedExd ("bybit") []) ("ETH") 0 = 2 ∧
    revert_to_dollars mD2 seedExd apiSeeded = Except.ok (revExd, apiSeeded) ∧
    get_exchange_balance revExd ("bybit") = 2000 + 2 * 2000 ∧
    ¬ (get_exchange_balance revExd ("bybit") = 2000 + 2 * 3000) := by decide

/-- C3 (amended): reconciliation calls `get_price` rather than reading
the recorded `conversion_prices`, but whenever every held currency's
price is already cached (as seeding guarantees), the reconciliation
result is entirely independent of the current market oracle — every
holding is valued at the cached first-fetch (seed-time) price, not the
reconciliation-time price. -/
theorem C3_amended :
    ∀ (m1 m2 : Market) (exd : ExDict) (api : ApiState),
    (∀ kv ∈ exd, cachedAll api kv.1 kv.2) →
    revert_to_dollars m1 exd api = revert_to_dollars m2 exd api := by
  intro m1 m2 exd
  induction exd with
  | nil => intro api _; rfl
  | cons kv rest ih =>
      intro api hc
      obtain ⟨e, sheet⟩ := kv
      have hsheet : revertSheet m1 e sheet api = revertSheet m2 e sheet api :=
        revertSheet_market_irrel api m1 m2 e sheet (hc (e, sheet) (List.mem_cons_self _ _))
      cases hrs : revertSheet m2 e sheet api with
      | error err => simp only [revert_to_dollars, hsheet, hrs, ebind_error]
      | ok sp =>
          obtain ⟨s2, api2⟩ := sp
          have hc2 : ∀ kv ∈ rest, cachedAll api2 kv.1 kv.2 := fun kv hkv =>
            cachedAll_mono (revertSheet_mono hrs) (hc kv (List.mem_cons_of_mem _ hkv))
          simp only [revert_to_dollars, hsheet, hrs, ebind_ok, ih api2 hc2]

/-- Witness for C3 (amended): reconciling the seeded scenario ledger at
the moved market gives the same result as at the seed-time market. -/
theorem C3_amended_witness :
    revert_to_dollars mD seedExd apiSeeded =
      revert_to_dollars mD2 seedExd apiSeeded :=
  C3_amended mD mD2 seedExd apiSeeded (by decide)

lemma seedPairs_bal_none {market : Market} {e : String} {portion : ℚ} :
    ∀ (pairs : List String) (bal : Dict) (cps : AList Dict) (api : ApiState)
      (out : Dict × AList Dict × ApiState),
    (∀ pair ∈ pairs, ∀ b q, splitOnChar ('/') pair = [b, q] →
      mainCurrency3 b q ≠ ("balance")) →
    aget bal ("balance") = none →
    seedPairs market e portion pairs bal cps api = .ok out →
    aget out.1 ("balance") = none := by
  intro pairs
  induction pairs with
  | nil =>
      intro bal cps api out hmains hb h
      simp only [seedPairs, Except.ok.injEq] at h
      rw [← h]
      exact hb
  | cons pair rest ih =>
      intro bal cps api out hmains hb h
      have hmrest : ∀ p ∈ rest, ∀ b q, splitOnChar ('/') p = [b, q] →
          mainCurrency3 b q ≠ ("balance") :=
        fun p hp => hmains p (List.mem_cons_of_mem _ hp)
      cases hsp : splitOnChar ('/') pair with
      | nil =>
          simp only [seedPairs, hsp] at h
          exact Except.noConfusion h
      | cons x1 t1 =>
          cases t1 with
          | nil =>
              simp only [seedPairs, hsp] at h
              exact Except.noConfusion h
          | cons x2 t2 =>
              cases t2 with
              | cons x3 t3 =>
                  simp only [seedPairs, hsp] at h
                  exact Except.noConfusion h
              | nil =>
                  simp only [seedPairs, hsp] at h
                  split at h
                  · rename_i hmc
                    cases hgp : get_price api market
                        (mainCurrency3 x1 x2 ++ ("/USDT")) e with
                    | error err =>
                        rw [hgp, ebind_error] at h
                        exact Except.noConfusion h
                    | ok pp =>
                        obtain ⟨p, api1⟩ := pp
                        simp only [hgp, ebind_ok] at h
                        split at h
                        · exact Except.noConfusion h
                        · refine ih _ _ _ _ hmrest ?_ h
                          rw [aget_aset_ne _ _
                            (Ne.symm (hmains pair (List.mem_cons_self _ _) x1 x2 hsp))]
                          exact hb
                  · exact ih _ _ _ _ hmrest hb h

lemma seedVenues_cash {market : Market} {portion rem : ℚ}
    {currency_pairs : List String}
    (hmains : ∀ pair ∈ currency_pairs, ∀ b q, splitOnChar ('/') pair = [b, q] →
      mainCurrency3 b q ≠ ("balance")) :
    ∀ (venues : List String) (exb : ExDict) (cps : AList Dict) (api : ApiState)
      (out : ExDict × AList Dict × ApiState),
    (∀ ex sheet, aget exb ex = some sheet → aget sheet ("balance") = some rem) →
    seedVenues market portion rem currency_pairs venues exb cps api = .ok out →
    ∀ ex sheet, aget out.1 ex = some sheet →
      aget sheet ("balance") = some rem := by
  intro venues
  induction venues with
  | nil =>
      intro exb cps api out hinv h
      simp only [seedVenues, Except.ok.injEq] at h
      rw [← h]
      exact hinv
  | cons ex rest ih =>
      intro exb cps api out hinv h
      cases hsp : seedPairs market ex portion currency_pairs [] cps api with
      | error err =>
          simp only [seedVenues, hsp, ebind_error] at h
          exact Except.noConfusion h
      | ok trip =>
          obtain ⟨bal, cps2, api2⟩ := trip
          simp only [seedVenues, hsp, ebind_ok] at h
          refine ih _ _ _ _ ?_ h
          intro ex' sheet' hget
          by_cases hex : ex' = ex
          · subst hex
            rw [aget_aset_self] at hget
            have hbn : aget bal ("balance") = none :=
              seedPairs_bal_none currency_pairs [] cps api (bal, cps2, api2)
                hmains rfl hsp
            have hupd : aget (aupdate [(("balance"), rem)] bal) ("balance") =
                some rem := by
              rw [aget_aupdate_ne bal [(("balance"), rem)] ("balance")
                (aget_none_ne hbn)]
              simp [aget]
            rw [← Option.some.inj hget]
            exact hupd
          · rw [aget_aset_ne _ _ hex] at hget
            exact hinv ex' sheet' hget

/-- C2 (counterexample): seeding 6000 over two venues with one common
pair gives each venue 2000 cash (one third of the WHOLE initial amount,
not of a per-venue share) and 4000 worth of converted holdings — not the
claimed 1000 + 2000 — and the seeded total across both venues is 12000,
double the initial amount. -/
theorem C2_counterexample :
    create_balance apiD mD 6000 apiD.venues
      [((pairKey ("bybit") ("bitstamp")), [("ETH/USDT")])] [] =
      Except.ok (seedExd, seedCps, apiSeeded) ∧
    get_exchange_balance seedExd ("bybit") = 2000 ∧
    ¬ (get_exchange_balance seedExd ("bybit") = 1000) ∧
    agetD (agetD seedExd ("bybit") []) ("ETH") 0 * 2000 = 4000 ∧
    ¬ (agetD (agetD seedExd ("bybit") []) ("ETH") 0 * 2000 = 2000) ∧
    agetD (agetD seedExd ("bitstamp") []) ("ETH") 0 * 2020 = 4000 ∧
    ¬ (((2000 + 4000) + (2000 + 4000) : ℚ) = 6000) ∧
    (((2000 + 4000) + (2000 + 4000) : ℚ) = 2 * 6000) := by decide

/-- C2 (amended): each venue's cash reserve is one third of the WHOLE
configured initial amount (not of a per-venue share), and the remaining
two thirds of the whole amount are converted per venue across the listed
common pairs; hence in the 6000/2-venue/one-pair scenario each venue
holds 2000 cash plus 4000 converted and the seeded total is 12000 —
venue-count times more than the initial amount would allow. -/
theorem C2_amended :
    (∀ (api : ApiState) (market : Market) (initial : ℚ)
       (exchange_list : List String) (cps : List (String × List String))
       (cpr : AList Dict) (exd : ExDict) (cpr2 : AList Dict) (api2 : ApiState),
     (∀ pair ∈ (cps.map Prod.snd).flatten, ∀ b q,
        splitOnChar ('/') pair = [b, q] → mainCurrency3 b q ≠ ("balance")) →
     create_balance api market initial exchange_list cps cpr =
       .ok (exd, cpr2, api2) →
     ∀ ex sheet, aget exd ex = some sheet →
       aget sheet ("balance") = some ((1/3 : ℚ) * initial)) ∧
    (create_balance apiD mD 6000 apiD.venues
       [((pairKey ("bybit") ("bitstamp")), [("ETH/USDT")])] [] =
       Except.ok (seedExd, seedCps, apiSeeded) ∧
     get_exchange_balance seedExd ("bybit") = 2000 ∧
     get_exchange_balance seedExd ("bitstamp") = 2000 ∧
     agetD (agetD seedExd ("bybit") []) ("ETH") 0 * 2000 = (2/3 : ℚ) * 6000 ∧
     agetD (agetD seedExd ("bitstamp") []) ("ETH") 0 * 2020 = (2/3 : ℚ) * 6000 ∧
     (((2000 + 4000) + (2000 + 4000) : ℚ) = 2 * 6000)) := by
  constructor
  · intro api market initial exchange_list cps cpr exd cpr2 api2 hmains hcreate
      ex sheet hget
    simp only [create_balance] at hcreate
    split at hcreate
    · exact Except.noConfusion hcreate
    · exact seedVenues_cash hmains exchange_list [] cpr api (exd, cpr2, api2)
        (by intro ex0 sheet0 hg; simp [aget] at hg) hcreate ex sheet hget
  · decide

/-- Witness for C2 (amended) at the scenario seeding. -/
theorem C2_amended_witness :
    aget [(("balance"), (2000 : ℚ)), (("ETH"), 2)] ("balance") =
      some ((1/3 : ℚ) * 6000) :=
  C2_amended.1 apiD mD 6000 apiD.venues
    [((pairKey ("bybit") ("bitstamp")), [("ETH/USDT")])] [] seedExd seedCps
    apiSeeded (mainsOkB_spec (by decide)) (by decide) ("bybit")
    [(("balance"), 2000), (("ETH"), 2)] (by decide)

end Arbitrage
